import Mathlib

/-!
Verification of the `sorcery_engine` crate core: the characteristic data
model, the color-derivation algorithm (`Card::color`), the zone and library
lifecycle (`Game::spawn_object`, `Library::shuffle`, `Game::start`), the
session constructor (`Game::new`) and the card database lookup
(`find_card_by_name`).

Modelling conventions:
- Rust `Vec`/slices become `List`; `IndexSet` (insertion-ordered set) is
  modelled as a `List` of its stored elements; `BTreeSet<Color>` is modelled
  as the sorted duplicate-free list of its elements together with the ordered
  `btreeInsert` operation mirroring `BTreeSet::insert` under the derived
  `Ord` of `Color` (declaration order White < Blue < Black < Red < Green).
- `HashMap<PlayerId, _>` becomes an association list with duplicate-free
  keys, iterated in list order (Rust iteration order is unspecified; the
  theorems quantify over the list, hence over every possible order).
- The `hecs::World` entity store becomes a fresh-id counter plus the list of
  spawned entities with their attached components.
- Rust panics (`assert_eq!`, `unimplemented!`, `unwrap_or_else(panic)`)
  become `Except.error`; since a panic unwinds out of a `&mut self` method
  leaving every mutation made before the panic in place, the error payload
  carries the state as it stands at the panic point.
- The static card database (`CARD_DATABASE`, loaded from a JSON resource
  outside the sources) and the thread-local random generator are passed as
  explicit parameters; theorems quantify over them.
-/

set_option maxHeartbeats 1000000

namespace Sorcery

/-- 105.1. The five colors, in Rust declaration order, which is the canonical
WUBRG order used by the derived `Ord` instance. -/
inductive Color where
  | white
  | blue
  | black
  | red
  | green
  deriving DecidableEq

/-- Position of a color in the Rust declaration order; the derived `Ord` on
`Color` compares by this index. -/
def Color.idx : Color → Nat
  | .white => 0
  | .blue => 1
  | .black => 2
  | .red => 3
  | .green => 4

/-- 105.2. Color classification of an object: monocolored, multicolored or
colorless. `multicolored` holds the element list of the Rust
`BTreeSet<Color>`, sorted by `Color.idx` and duplicate-free. -/
inductive ColorKind where
  | monocolored (color : Color)
  | multicolored (colors : List Color)
  | colorless
  deriving DecidableEq

/-- 107.4. Mana symbols: the five colored symbols, numerical generic
symbols, the variable symbol X and the colorless symbol. Hybrid, Phyrexian
and snow symbols are not implemented in the source. -/
inductive ManaSymbol where
  | colored (color : Color)
  | generic (amount : Nat)
  | «variable»
  | colorless
  deriving DecidableEq

/-- 202.1. A mana cost: `ManaCost(IndexSet<ManaSymbol>)`, an
insertion-ordered set of symbols, modelled as the list of stored symbols. -/
structure ManaCost where
  symbols : List ManaSymbol
  deriving DecidableEq

/-- 201.2. The English card name, `Name(String)`. -/
structure Name where
  val : String
  deriving DecidableEq

/-- 207.1. The rules text, `RulesText(String)`. -/
structure RulesText where
  val : String
  deriving DecidableEq

/-- 209.1. Planeswalker loyalty, `Loyalty(u64)`. -/
structure Loyalty where
  val : Nat
  deriving DecidableEq

/-- 212.1a. The collector number, `CollectorNumber(u64)`. -/
structure CollectorNumber where
  val : Nat
  deriving DecidableEq

/-- Card types (rule 300.1). -/
inductive CardType where
  | artifact
  | conspiracy
  | creature
  | dungeon
  | enchantment
  | instant
  | land
  | phenomenon
  | plane
  | planeswalker
  | scheme
  | sorcery
  | tribal
  | vanguard
  deriving DecidableEq

/-- Artifact subtypes, rule 301.3. -/
inductive ArtifactType where
  | blood
  | clue
  | contraption
  | equipment
  | food
  | fortification
  | gold
  | treasure
  | vehicle
  deriving DecidableEq

/-- Creature subtypes, rule 302.3. -/
inductive CreatureType where
  | advisor
  | aetherborn
  | ally
  | angel
  | antelope
  | ape
  | archer
  | archon
  | army
  | artificer
  | assassin
  | assemblyWorker
  | atog
  | aurochs
  | avatar
  | azra
  | badger
  | barbarian
  | bard
  | basilisk
  | bat
  | bear
  | beast
  | beeble
  | beholder
  | berserker
  | bird
  | blinkmoth
  | boar
  | bringer
  | brushwagg
  | camarid
  | camel
  | caribou
  | carrier
  | cat
  | centaur
  | cephalid
  | chimera
  | citizen
  | cleric
  | cockatrice
  | construct
  | coward
  | crab
  | crocodile
  | cyclops
  | dauthi
  | demigod
  | demon
  | deserter
  | devil
  | dinosaur
  | djinn
  | dog
  | dragon
  | drake
  | dreadnought
  | drone
  | druid
  | dryad
  | dwarf
  | efreet
  | egg
  | elder
  | eldrazi
  | elemental
  | elephant
  | elf
  | elk
  | eye
  | faerie
  | ferret
  | fish
  | flagbearer
  | fox
  | fractal
  | frog
  | fungus
  | gargoyle
  | germ
  | giant
  | gnoll
  | gnome
  | goat
  | goblin
  | god
  | golem
  | gorgon
  | graveborn
  | gremlin
  | griffin
  | hag
  | halfling
  | hamster
  | harpy
  | hellion
  | hippo
  | hippogriff
  | homarid
  | homunculus
  | horror
  | horse
  | human
  | hydra
  | hyena
  | illusion
  | imp
  | incarnation
  | inkling
  | insect
  | jackal
  | jellyfish
  | juggernaut
  | kavu
  | kirin
  | kithkin
  | knight
  | kobold
  | kor
  | kraken
  | lamia
  | lammasu
  | leech
  | leviathan
  | lhurgoyf
  | licid
  | lizard
  | manticore
  | masticore
  | mercenary
  | merfolk
  | metathran
  | minion
  | minotaur
  | mole
  | monger
  | mongoose
  | monk
  | monkey
  | moonfolk
  | mouse
  | mutant
  | myr
  | mystic
  | naga
  | nautilus
  | nephilim
  | nightmare
  | nightstalker
  | ninja
  | noble
  | noggle
  | nomad
  | nymph
  | octopus
  | ogre
  | ooze
  | orb
  | orc
  | orgg
  | otter
  | ouphe
  | ox
  | oyster
  | pangolin
  | peasant
  | pegasus
  | pentavite
  | pest
  | phelddagrif
  | phoenix
  | phyrexian
  | pilot
  | pincher
  | pirate
  | plant
  | praetor
  | prism
  | processor
  | rabbit
  | ranger
  | rat
  | rebel
  | reflection
  | rhino
  | rigger
  | rogue
  | sable
  | salamander
  | samurai
  | sand
  | saproling
  | satyr
  | scarecrow
  | scion
  | scorpion
  | scout
  | sculpture
  | serf
  | serpent
  | servo
  | shade
  | shaman
  | shapeshifter
  | shark
  | sheep
  | siren
  | skeleton
  | slith
  | sliver
  | slug
  | snake
  | soldier
  | soltari
  | spawn
  | specter
  | spellshaper
  | sphinx
  | spider
  | spike
  | spirit
  | splinter
  | sponge
  | squid
  | squirrel
  | starfish
  | surrakar
  | survivor
  | tentacle
  | tetravite
  | thalakos
  | thopter
  | thrull
  | tiefling
  | treefolk
  | trilobite
  | triskelavite
  | troll
  | turtle
  | unicorn
  | vampire
  | vedalken
  | viashino
  | volver
  | wall
  | warlock
  | warrior
  | weird
  | werewolf
  | whale
  | wizard
  | wolf
  | wolverine
  | wombat
  | worm
  | wraith
  | wurm
  | yeti
  | zombie
  | zubera

/-- Enchantment subtypes, rule 303.3. -/
inductive EnchantmentType where
  | aura
  | cartouche
  | «class»
  | curse
  | rune
  | saga
  | shard
  | shrine
  deriving DecidableEq

/-- Basic land types, rule 305.6. -/
inductive BasicLandType where
  | forest
  | island
  | mountain
  | plains
  | swamp
  deriving DecidableEq

/-- Planeswalker subtypes, rule 306.3. -/
inductive PlaneswalkerType where
  | ajani
  | aminatou
  | angrath
  | arlinn
  | ashiok
  | bahamut
  | basri
  | bolas
  | calix
  | chandra
  | dack
  | dakkon
  | daretti
  | davriel
  | dihada
  | domri
  | dovin
  | ellywick
  | elspeth
  | estrid
  | freyalise
  | garruk
  | gideon
  | grist
  | huatli
  | jace
  | jaya
  | jeska
  | kaito
  | karn
  | kasmina
  | kaya
  | kiora
  | koth
  | liliana
  | lolth
  | lukka
  | mordenkainen
  | nahiri
  | narset
  | niko
  | nissa
  | nixilis
  | oko
  | ral
  | rowan
  | saheeli
  | samut
  | sarkhan
  | serra
  | sorin
  | szat
  | tamiyo
  | teferi
  | teyo
  | tezzeret
  | tibalt
  | tyvar
  | ugin
  | venser
  | vivien
  | vraska
  | will
  | windgrace
  | wrenn
  | xenagos
  | yanggu
  | yanling
  | zariel

/-- Spell types shared by instants and sorceries, rules 304.3 and 307.3. -/
inductive SpellType where
  | adventure
  | arcane
  | lesson
  | trap
  deriving DecidableEq

/-- Planar subtypes, rule 310.3. -/
inductive PlanarType where
  | alara
  | arkhos
  | azgol
  | belenon
  | bolassMeditationRealm
  | dominaria
  | equilor
  | ergamon
  | fabacin
  | innistrad
  | iquatana
  | ir
  | kaldheim
  | kamigawa
  | karsus
  | kephalai
  | kinshala
  | kolbahan
  | kyneth
  | lorwyn
  | luvion
  | mercadia
  | mirrodin
  | moag
  | mongseng
  | muraganda
  | newPhyrexia
  | phyrexia
  | pyrulea
  | rabiah
  | rath
  | ravnica
  | regatha
  | segovia
  | serrasRealm
  | shadowmoor
  | shandalar
  | ulgrotha
  | valla
  | vryn
  | wildfire
  | xerex
  | zendikar

/-- Supertypes, rule 205.4a. -/
inductive Supertype where
  | basic
  | legendary
  | ongoing
  | snow
  | world
  deriving DecidableEq

/-- Expansion symbol rarities, rule 206.2. -/
inductive Rarity where
  | mythicRare
  | rare
  | uncommon
  | common
  | basicLand
  | timeshifted
  deriving DecidableEq

/-- 305.5. Land subtypes: a basic land type or one of the named nonbasic
land types. -/
inductive LandType where
  | basic (ty : BasicLandType)
  | desert
  | gate
  | lair
  | locus
  | mine
  | powerPlant
  | tower
  | urzas
  deriving DecidableEq

/-- 205.3a-c. A subtype, tagged by the card type it is correlated to. -/
inductive Subtype where
  | artifact (ty : ArtifactType)
  | creature (ty : CreatureType)
  | enchantment (ty : EnchantmentType)
  | land (ty : LandType)
  | plane (ty : PlanarType)
  | planeswalker (ty : PlaneswalkerType)
  | spell (ty : SpellType)

/-- 205.1. The type line: card types, subtypes and supertypes, each an
`IndexSet` in the source, modelled as the list of stored elements. -/
structure TypeLine where
  card_type : List CardType
  subtype : List Subtype
  supertype : List Supertype

/-- 206.1. The expansion symbol: set code and rarity. -/
structure ExpansionSymbol where
  set : String
  rarity : Rarity
  deriving DecidableEq

/-- 208.2. A power or toughness value: a fixed number or the variable
star value. -/
inductive PtValue where
  | fixed (val : Int)
  | «variable»
  deriving DecidableEq

/-- 208.1. The power/toughness characteristic of a creature card. -/
structure PtCharacteristic where
  power : PtValue
  toughness : PtValue
  deriving DecidableEq

/-- 200.1. A card template as loaded from the static database. -/
structure Card where
  name : Name
  mana_cost : Option ManaCost
  color_indicator : Option ColorKind
  type_line : TypeLine
  expansion_symbol : ExpansionSymbol
  rules_text : RulesText
  pt : Option PtCharacteristic
  loyalty : Option Loyalty
  collector_number : CollectorNumber

/-- Opaque reference to a player within a game, `PlayerId(u32)`. -/
structure PlayerId where
  id : Nat
  deriving DecidableEq

/-- 102.1. A player: id, display name and life total. -/
structure Player where
  id : PlayerId
  name : String
  life : Int

/-- 400.1. The seven zones; library, hand and graveyard are scoped to one
player, carried in the tag. -/
inductive Zone where
  | library (player : PlayerId)
  | hand (player : PlayerId)
  | battlefield
  | graveyard (player : PlayerId)
  | stack
  | exile
  | command
  deriving DecidableEq

/-- 108.3. The owner component attached to a spawned object. -/
structure Owner where
  player : PlayerId
  deriving DecidableEq

/-- `BTreeSet<Color>::insert` on the sorted-list model: ordered insertion
under the derived `Ord` of `Color` (comparison by `Color.idx`), keeping the
list duplicate-free. -/
def btreeInsert (c : Color) : List Color → List Color
  | [] => [c]
  | x :: xs =>
    if c.idx < x.idx then c :: x :: xs
    else if c.idx = x.idx then x :: xs
    else x :: btreeInsert c xs

/-- `BTreeSet::from` / collecting an iterator into a `BTreeSet<Color>`:
fold `btreeInsert` over the iteration order. -/
def btreeSetOf (l : List Color) : List Color :=
  l.foldl (fun acc c => btreeInsert c acc) []

/-- The fold inside `Card::color`: scan the mana cost symbols and insert the
color of every `ManaSymbol::Colored` into a `BTreeSet<Color>`; other symbol
kinds contribute nothing. -/
def collectColors (symbols : List ManaSymbol) : List Color :=
  symbols.foldl
    (fun colors symbol =>
      match symbol with
      | ManaSymbol.colored color => btreeInsert color colors
      | _ => colors)
    []

/-- `Card::color` (rule 202.2): a present color indicator is returned
verbatim; otherwise the distinct colors of the colored symbols of the mana
cost are collected, an empty or absent collection is colorless, a singleton
is monocolored and anything larger is multicolored. -/
def Card.color (card : Card) : ColorKind :=
  match card.color_indicator with
  | some color_indicator => color_indicator
  | none =>
    let colors :=
      (card.mana_cost.map fun it => collectColors it.symbols).filter
        fun it => !it.isEmpty
    match colors with
    | none => ColorKind.colorless
    | some colors =>
      match colors.length with
      | 1 => ColorKind.monocolored (colors.headD Color.white)
      | _ => ColorKind.multicolored colors

/-- `find_card_by_name`: first card of the database whose name equals the
query. The static `CARD_DATABASE` is passed explicitly as `db`. -/
def find_card_by_name (db : List Card) (name : String) : Option Card :=
  db.find? fun it => it.name.val == name

/-- The components attached to an entity spawned by `Game::spawn_object`:
the `Object` marker plus the cloned card characteristics, the conditionally
attached optional characteristics, and the owner and zone added on the
`Zone::Library` path. -/
structure EntityData where
  name : Name
  type_line : TypeLine
  expansion_symbol : ExpansionSymbol
  rules_text : RulesText
  collector_number : CollectorNumber
  color : ColorKind
  mana_cost : Option ManaCost
  pt : Option PtCharacteristic
  loyalty : Option Loyalty
  owner : Owner
  zone : Zone

/-- The `hecs::World` entity store: a fresh-id counter and the spawned
entities with their components. `spawn` hands out `nextEntity` and
increments it. -/
structure World where
  nextEntity : Nat
  entities : List (Nat × EntityData)

/-- `World::new()`. -/
def World.new : World :=
  { nextEntity := 0, entities := [] }

/-- Component lookup: the data attached to entity `e`, if spawned. -/
def World.lookup (w : World) (e : Nat) : Option EntityData :=
  (w.entities.find? fun x => x.1 == e).map Prod.snd

/-- The number of entities in the world whose attached `Zone` component
equals `z` (the query the repository's test performs with
`world.query::<With<Object, &Zone>>`). -/
def World.zoneCount (w : World) (z : Zone) : Nat :=
  (w.entities.filter fun x => x.2.zone == z).length

/-- 401.1. A library: an ordered sequence of entity references; order is
draw order. -/
structure Library where
  cards : List Nat

/-- `Library::default()`: the empty library. -/
def Library.default : Library :=
  { cards := [] }

/-- 100.1. The game session: the entity store, the player roster and one
library per player (`HashMap<PlayerId, Library>`, modelled as an
association list). -/
structure Game where
  world : World
  players : List Player
  libraries : List (PlayerId × Library)

/-- `HashMap::get` on the association-list model of `libraries`. -/
def lookupLibrary : List (PlayerId × Library) → PlayerId → Option Library
  | [], _ => none
  | (q, lib) :: rest, p => if q = p then some lib else lookupLibrary rest p

/-- `HashMap::get_mut` followed by an update `f` of the found library. -/
def updateLibrary (f : Library → Library) :
    List (PlayerId × Library) → PlayerId → List (PlayerId × Library)
  | [], _ => []
  | (q, lib) :: rest, p =>
    if q = p then (q, f lib) :: rest else (q, lib) :: updateLibrary f rest p

/-- `Game::new(players)`: sequential ids `0..players`, 20 starting life
(rule 119.1), display names `Player i+1`, and one empty library per
player. -/
def Game.new (players : Nat) : Game :=
  let players :=
    (List.range players).map fun it =>
      { id := PlayerId.mk it, life := 20, name := "Player " ++ toString (it + 1) : Player }
  { world := World.new
    players := players
    libraries := players.map fun it => (it.id, Library.default) }

/-- `Game::spawn_object(card, zone)`: build the component bundle from the
card template; on the `Zone::Library(owner)` path attach `Owner` and the
zone, commit the entity to the world, then push it onto the owner's
library — a missing library is a panic that happens after the world commit,
so the error payload carries the world with the entity already spawned. Any
other zone is `unimplemented!()` before anything is mutated. -/
def Game.spawn_object (g : Game) (card : Card) (zone : Zone) :
    Except (String × Game) Game :=
  match zone with
  | Zone.library owner =>
    let data : EntityData :=
      { name := card.name
        type_line := card.type_line
        expansion_symbol := card.expansion_symbol
        rules_text := card.rules_text
        collector_number := card.collector_number
        color := card.color
        mana_cost := card.mana_cost
        pt := card.pt
        loyalty := card.loyalty
        owner := Owner.mk owner
        zone := Zone.library owner }
    let entity := g.world.nextEntity
    let world : World :=
      { nextEntity := entity + 1, entities := g.world.entities ++ [(entity, data)] }
    match lookupLibrary g.libraries owner with
    | some _ =>
      Except.ok
        { g with
          world := world
          libraries :=
            updateLibrary (fun lib => { cards := lib.cards ++ [entity] })
              g.libraries owner }
    | none =>
      Except.error
        ("Could not access the library of player with id " ++ toString owner.id ++ ".",
          { g with world := world })
  | _ => Except.error ("not implemented", g)

/-- Swap of the elements at positions `i` and `j` (`<[T]>::swap`); out of
range positions leave the list unchanged. -/
def listSwap (l : List Nat) (i j : Nat) : List Nat :=
  match l[i]?, l[j]? with
  | some a, some b => (l.set i b).set j a
  | _, _ => l

/-- The Fisher-Yates loop of `SliceRandom::shuffle`: for `i` from `len - 1`
down to `1`, swap position `i` with `gen_range(0..=i)`. The random
generator is modelled by `pick`; the draw for position `i` is
`pick i % (i + 1)`, which ranges over exactly `0..=i` as `pick i` ranges
over all naturals. -/
def shuffleSteps (pick : Nat → Nat) : Nat → List Nat → List Nat
  | 0, l => l
  | i + 1, l => shuffleSteps pick i (listSwap l (i + 1) (pick (i + 1) % (i + 2)))

/-- `Library::shuffle`: shuffle the card sequence in place with a
thread-local random generator, modelled by `pick`. -/
def Library.shuffle (pick : Nat → Nat) (lib : Library) : Library :=
  { cards := shuffleSteps pick (lib.cards.length - 1) lib.cards }

/-- The shuffle loop at the end of `Game::start`: every library is shuffled
once; `picks k` is the random source consumed by the `k`-th library in
iteration order. -/
def Game.shuffleAll (picks : Nat → Nat → Nat) (g : Game) : Game :=
  { g with
    libraries := g.libraries.enum.map fun x => (x.2.1, x.2.2.shuffle (picks x.1)) }

/-- Modelled from the spec: the `Deck` type is referenced by `Game::start`
and the repository's test but its definition is not among the sources. Per
the spec, a deck is an ordered list of (card name, copy count) pairs. -/
structure Deck where
  entries : List (String × Nat)

/-- Modelled from the spec: `Deck::cards` resolves every named card through
the card database, failing fatally if a name is not found, and yields one
card template per copy. -/
def resolveEntries (db : List Card) : List (String × Nat) → Except String (List Card)
  | [] => Except.ok []
  | (name, count) :: rest =>
    match find_card_by_name db name with
    | some card => (resolveEntries db rest).map fun cards => List.replicate count card ++ cards
    | none => Except.error ("Card not found: " ++ name)

/-- Modelled from the spec: the card sequence of a deck, see
`resolveEntries`. -/
def Deck.cards (db : List Card) (d : Deck) : Except String (List Card) :=
  resolveEntries db d.entries

/-- Total number of copies in a deck: the sum of its copy counts. -/
def Deck.size (d : Deck) : Nat :=
  (d.entries.map Prod.snd).sum

/-- The inner loop of `Game::start`: spawn each card of the list into
`zone`, propagating the state at the first failure. -/
def Game.spawnCards (g : Game) (cards : List Card) (zone : Zone) :
    Except (String × Game) Game :=
  match cards with
  | [] => Except.ok g
  | card :: rest =>
    match g.spawn_object card zone with
    | Except.ok g' => g'.spawnCards rest zone
    | Except.error e => Except.error e

/-- The outer loop of `Game::start`: for every deck in iteration order,
resolve its cards and spawn each copy into the owning player's library. -/
def Game.spawnDecks (db : List Card) (g : Game) :
    List (PlayerId × Deck) → Except (String × Game) Game
  | [] => Except.ok g
  | (id, deck) :: rest =>
    match deck.cards db with
    | Except.ok cards =>
      match g.spawnCards cards (Zone.library id) with
      | Except.ok g' => g'.spawnDecks db rest
      | Except.error e => Except.error e
    | Except.error msg => Except.error (msg, g)

/-- `Game::start(decks)`: assert that the deck mapping and the player
roster have the same size, spawn every deck into its owner's library, then
shuffle every library once. -/
def Game.start (db : List Card) (picks : Nat → Nat → Nat) (g : Game)
    (decks : List (PlayerId × Deck)) : Except (String × Game) Game :=
  if decks.length = g.players.length then
    match g.spawnDecks db decks with
    | Except.ok g' => Except.ok (g'.shuffleAll picks)
    | Except.error e => Except.error e
  else Except.error ("assertion failed: decks.len() == self.players.len()", g)

/-- Whether a zone is a library zone; the only zone `Game::spawn_object`
supports. -/
def Zone.isLibrary : Zone → Bool
  | Zone.library _ => true
  | _ => false

/-- Specification-side reading of rule 202.2: the colors referenced by the
colored (single-color) symbols of a symbol list, in symbol order, with
duplicates kept. Its `toFinset` is "the set of distinct colors referenced
by colored symbols". -/
def coloredColors (symbols : List ManaSymbol) : List Color :=
  symbols.filterMap fun s =>
    match s with
    | ManaSymbol.colored c => some c
    | _ => none

/-- Well-formedness of the entity store: every spawned id is below the
fresh-id counter, so freshly handed out ids are new. -/
def World.WF (w : World) : Prop :=
  ∀ x ∈ w.entities, x.1 < w.nextEntity

/-- Entity `e` is a well-filed member of player `p`'s library: it is
spawned, its zone component is `Library(p)` and its owner component is
`p`. -/
def GoodEntity (w : World) (p : PlayerId) (e : Nat) : Prop :=
  ∃ d, w.lookup e = some d ∧ d.zone = Zone.library p ∧ d.owner = Owner.mk p

/-- The library invariant of the spec: for every player's library, its
sequence length equals the number of entities in the world whose zone is
that library, and every entity it references carries that zone and that
owner. -/
def LibraryInvariant (g : Game) : Prop :=
  ∀ p lib, (p, lib) ∈ g.libraries →
    lib.cards.length = g.world.zoneCount (Zone.library p) ∧
    ∀ e ∈ lib.cards, GoodEntity g.world p e

/-- Well-formed game state: fresh ids are new, library keys are unique (a
`HashMap` invariant) and the library invariant holds. -/
def GameWF (g : Game) : Prop :=
  g.world.WF ∧ (g.libraries.map Prod.fst).Nodup ∧ LibraryInvariant g

/-- Length of player `p`'s library sequence (0 if `p` has no library). -/
def libLen (g : Game) (p : PlayerId) : Nat :=
  match lookupLibrary g.libraries p with
  | some lib => lib.cards.length
  | none => 0

/-- A basic land card template, used as concrete test input. -/
def plainsCard : Card :=
  { name := Name.mk "Plains"
    mana_cost := none
    color_indicator := none
    type_line :=
      { card_type := [CardType.land]
        subtype := [Subtype.land (LandType.basic BasicLandType.plains)]
        supertype := [Supertype.basic] }
    expansion_symbol := { set := "TEST", rarity := Rarity.basicLand }
    rules_text := RulesText.mk ""
    pt := none
    loyalty := none
    collector_number := CollectorNumber.mk 1 }

/-- A one-card database for concrete runs. -/
def db0 : List Card := [plainsCard]

/-- A constant random source for concrete runs. -/
def picks0 : Nat → Nat → Nat := fun _ _ => 0

/-- A two-copy deck of Plains. -/
def deck0 : Deck := Deck.mk [("Plains", 2)]

/-- A deck mapping covering the roster of a one-player session. -/
def decks0 : List (PlayerId × Deck) := [(PlayerId.mk 0, deck0)]

/-- A deck mapping of the right size whose key is not on the roster of a
one-player session. -/
def decksBad : List (PlayerId × Deck) := [(PlayerId.mk 7, deck0)]

/-- The session produced by a successful concrete `start`. -/
def g0' : Game :=
  (Game.start db0 picks0 (Game.new 1) decks0).toOption.getD (Game.new 0)

/-- The strict order on colors induced by the derived Rust `Ord`. -/
def colorLt (a b : Color) : Prop :=
  a.idx < b.idx

theorem Color.idx_inj : ∀ (a b : Color), a.idx = b.idx → a = b := by
  intro a b h
  cases a <;> cases b <;> simp_all [Color.idx]

theorem btreeInsert_cons_lt {c y : Color} {ys : List Color} (h1 : c.idx < y.idx) :
    btreeInsert c (y :: ys) = c :: y :: ys := by
  simp [btreeInsert, h1]

theorem btreeInsert_cons_eq {c y : Color} {ys : List Color} (h2 : c.idx = y.idx) :
    btreeInsert c (y :: ys) = y :: ys := by
  simp [btreeInsert, h2, Nat.lt_irrefl, h2 ▸ Nat.lt_irrefl c.idx]

theorem btreeInsert_cons_gt {c y : Color} {ys : List Color} (h3 : y.idx < c.idx) :
    btreeInsert c (y :: ys) = y :: btreeInsert c ys := by
  have h1 : ¬ c.idx < y.idx := by omega
  have h2 : ¬ c.idx = y.idx := by omega
  simp [btreeInsert, h1, h2]

theorem mem_btreeInsert {x c : Color} {l : List Color} :
    x ∈ btreeInsert c l ↔ x = c ∨ x ∈ l := by
  induction l with
  | nil => simp [btreeInsert]
  | cons y ys ih =>
    rcases Nat.lt_trichotomy c.idx y.idx with h | h | h
    · rw [btreeInsert_cons_lt h]
      simp [List.mem_cons]
    · have hcy : c = y := Color.idx_inj _ _ h
      subst hcy
      rw [btreeInsert_cons_eq rfl]
      simp [List.mem_cons]
    · rw [btreeInsert_cons_gt h]
      rw [List.mem_cons, ih, List.mem_cons]
      tauto

theorem pairwise_btreeInsert {c : Color} {l : List Color}
    (h : l.Pairwise colorLt) : (btreeInsert c l).Pairwise colorLt := by
  induction l with
  | nil => simp [btreeInsert, colorLt]
  | cons y ys ih =>
    rcases List.pairwise_cons.mp h with ⟨hy, hys⟩
    rcases Nat.lt_trichotomy c.idx y.idx with h1 | h1 | h1
    · rw [btreeInsert_cons_lt h1]
      refine List.pairwise_cons.mpr ⟨?_, h⟩
      intro z hz
      rcases List.mem_cons.mp hz with rfl | hz
      · exact h1
      · exact Nat.lt_trans h1 (hy z hz)
    · rw [btreeInsert_cons_eq h1]
      exact h
    · rw [btreeInsert_cons_gt h1]
      refine List.pairwise_cons.mpr ⟨?_, ih hys⟩
      intro z hz
      rcases mem_btreeInsert.mp hz with rfl | hz
      · exact h1
      · exact hy z hz

theorem btreeSetOf_go {l : List Color} :
    ∀ acc : List Color, acc.Pairwise colorLt →
      (l.foldl (fun acc c => btreeInsert c acc) acc).Pairwise colorLt ∧
      ∀ x, x ∈ l.foldl (fun acc c => btreeInsert c acc) acc ↔ x ∈ acc ∨ x ∈ l := by
  induction l with
  | nil => intro acc hacc; simpa using hacc
  | cons c cs ih =>
    intro acc hacc
    obtain ⟨hp, hm⟩ := ih (btreeInsert c acc) (pairwise_btreeInsert hacc)
    refine ⟨hp, fun x => ?_⟩
    rw [List.foldl_cons, hm x, mem_btreeInsert]
    rw [List.mem_cons]
    tauto

theorem btreeSetOf_pairwise (l : List Color) : (btreeSetOf l).Pairwise colorLt :=
  (btreeSetOf_go [] List.Pairwise.nil).1

theorem mem_btreeSetOf {x : Color} {l : List Color} :
    x ∈ btreeSetOf l ↔ x ∈ l := by
  have := (btreeSetOf_go (l := l) [] List.Pairwise.nil).2 x
  simpa [btreeSetOf] using this

theorem btreeSetOf_nodup (l : List Color) : (btreeSetOf l).Nodup := by
  refine (btreeSetOf_pairwise l).imp ?_
  intro a b hab heq
  subst heq
  exact Nat.lt_irrefl _ hab

theorem toFinset_btreeSetOf (l : List Color) :
    (btreeSetOf l).toFinset = l.toFinset := by
  ext x
  simp [List.mem_toFinset, mem_btreeSetOf]

theorem collectColors_eq_btreeSetOf (symbols : List ManaSymbol) :
    collectColors symbols = btreeSetOf (coloredColors symbols) := by
  suffices h : ∀ (syms : List ManaSymbol) (acc : List Color),
      syms.foldl
        (fun colors symbol =>
          match symbol with
          | ManaSymbol.colored color => btreeInsert color colors
          | _ => colors)
        acc =
      (coloredColors syms).foldl (fun acc c => btreeInsert c acc) acc from
    h symbols []
  intro syms
  induction syms with
  | nil => intro acc; rfl
  | cons s ss ih =>
    intro acc
    cases s <;> simp [coloredColors, List.filterMap_cons, ih]

theorem nodup_mem_singleton {l : List Color} {c : Color} (hn : l.Nodup)
    (hm : ∀ x, x ∈ l ↔ x = c) : l = [c] := by
  cases l with
  | nil => exact absurd ((hm c).mpr rfl) (by simp)
  | cons y ys =>
    have hy : y = c := (hm y).mp (by simp)
    subst hy
    cases ys with
    | nil => rfl
    | cons z zs =>
      have hz : z = y := (hm z).mp (by simp)
      subst hz
      simp at hn

/-- Bridge: with no indicator and a present mana cost, `Card::color` is
determined by the shape of the collected `BTreeSet` of colors. -/
theorem card_color_of_no_indicator (card : Card) (mc : ManaCost)
    (h1 : card.color_indicator = none) (h2 : card.mana_cost = some mc) :
    card.color =
      match collectColors mc.symbols with
      | [] => ColorKind.colorless
      | [c] => ColorKind.monocolored c
      | cs => ColorKind.multicolored cs := by
  cases hcl : collectColors mc.symbols with
  | nil => simp [Card.color, h1, h2, hcl, Option.filter]
  | cons c1 rest =>
    cases rest with
    | nil => simp [Card.color, h1, h2, hcl, Option.filter]
    | cons c2 rest2 =>
      simp only [Card.color, h1, h2, Option.map_some', hcl, Option.filter,
        List.isEmpty_cons, Bool.not_false, if_true]
      rfl

/-- C3: a present color indicator is returned unchanged by color
derivation, whatever the mana cost is. -/
theorem color_indicator_overrides (card : Card) (ci : ColorKind)
    (h : card.color_indicator = some ci) : card.color = ci := by
  simp [Card.color, h]

theorem color_indicator_overrides_witness :
    ({ plainsCard with
        color_indicator := some (ColorKind.monocolored Color.white)
        mana_cost := some (ManaCost.mk [ManaSymbol.colored Color.green]) } : Card).color
      = ColorKind.monocolored Color.white :=
  color_indicator_overrides _ _ rfl

/-- C4: with no color indicator, and a mana cost that is absent or whose
symbols reference no color, derivation returns `Colorless`. -/
theorem color_no_colored_symbols (card : Card)
    (h1 : card.color_indicator = none)
    (h2 : ∀ mc, card.mana_cost = some mc → coloredColors mc.symbols = []) :
    card.color = ColorKind.colorless := by
  cases hmc : card.mana_cost with
  | none => simp [Card.color, h1, hmc]
  | some mc =>
    have h3 : collectColors mc.symbols = [] := by
      rw [collectColors_eq_btreeSetOf, h2 mc hmc]
      rfl
    rw [card_color_of_no_indicator card mc h1 hmc, h3]

theorem color_no_colored_symbols_witness :
    ({ plainsCard with
        mana_cost := some (ManaCost.mk
          [ManaSymbol.generic 2, ManaSymbol.«variable», ManaSymbol.colorless]) } : Card).color
      = ColorKind.colorless :=
  color_no_colored_symbols _ rfl (by intro mc h; cases h; rfl)

/-- C5: with no color indicator, if the mana cost references exactly one
distinct color the result is `Monocolored` of it; if it references two or
more, the result is `Multicolored` of exactly that set of colors, held as a
duplicate-free list in strictly increasing WUBRG order. -/
theorem color_mono_multicolored (card : Card) (mc : ManaCost)
    (h1 : card.color_indicator = none) (h2 : card.mana_cost = some mc) :
    (∀ c : Color, (coloredColors mc.symbols).toFinset = {c} →
        card.color = ColorKind.monocolored c) ∧
    (2 ≤ (coloredColors mc.symbols).toFinset.card →
      ∃ l : List Color, card.color = ColorKind.multicolored l ∧
        l.toFinset = (coloredColors mc.symbols).toFinset ∧
        l.Pairwise colorLt) := by
  have hcc : collectColors mc.symbols = btreeSetOf (coloredColors mc.symbols) :=
    collectColors_eq_btreeSetOf mc.symbols
  have hfin := toFinset_btreeSetOf (coloredColors mc.symbols)
  have hnd := btreeSetOf_nodup (coloredColors mc.symbols)
  have hbridge := card_color_of_no_indicator card mc h1 h2
  constructor
  · intro c hc
    have hone : btreeSetOf (coloredColors mc.symbols) = [c] := by
      refine nodup_mem_singleton hnd fun x => ?_
      rw [← List.mem_toFinset, hfin, hc, Finset.mem_singleton]
    rw [hbridge, hcc, hone]
  · intro h2c
    refine ⟨btreeSetOf (coloredColors mc.symbols), ?_, hfin, btreeSetOf_pairwise _⟩
    have hlen : 2 ≤ (btreeSetOf (coloredColors mc.symbols)).length := by
      rw [← List.toFinset_card_of_nodup hnd, hfin]
      exact h2c
    rw [hbridge, hcc]
    cases hbs : btreeSetOf (coloredColors mc.symbols) with
    | nil => rw [hbs] at hlen; simp at hlen
    | cons b1 bs1 =>
      cases bs1 with
      | nil => rw [hbs] at hlen; simp at hlen
      | cons b2 bs2 => rfl

theorem color_mono_multicolored_witness :
    (({ plainsCard with
        mana_cost := some (ManaCost.mk [ManaSymbol.colored Color.red]) } : Card).color
      = ColorKind.monocolored Color.red) ∧
    (({ plainsCard with
        mana_cost := some (ManaCost.mk
          [ManaSymbol.generic 2, ManaSymbol.colored Color.black,
           ManaSymbol.colored Color.black, ManaSymbol.colored Color.green]) } : Card).color
      = ColorKind.multicolored [Color.black, Color.green]) :=
  ⟨(color_mono_multicolored
      { plainsCard with mana_cost := some (ManaCost.mk [ManaSymbol.colored Color.red]) }
      (ManaCost.mk [ManaSymbol.colored Color.red]) rfl rfl).1 Color.red (by decide),
    by rfl⟩

/-- C8: the derived ordering on `Color` is the canonical WUBRG sequence:
collecting {Black, Blue, Green, Red, White} into a `BTreeSet<Color>` and
iterating it yields White, Blue, Black, Red, Green. -/
theorem color_order_is_stable :
    btreeSetOf [Color.black, Color.blue, Color.green, Color.red, Color.white] =
      [Color.white, Color.blue, Color.black, Color.red, Color.green] := by
  rfl

/-- C6: spawning into any zone other than a library fails with the
unimplemented-path error before anything is mutated: the error payload
carries the game unchanged, so no entity is spawned and no library is
modified, and the result is never a silent success. -/
theorem spawn_object_non_library_fails (g : Game) (card : Card) (zone : Zone)
    (h : zone.isLibrary = false) :
    g.spawn_object card zone = Except.error ("not implemented", g) := by
  cases zone <;> simp_all [Zone.isLibrary, Game.spawn_object]

theorem spawn_object_non_library_fails_witness :
    (Zone.battlefield.isLibrary = false) ∧
    ((Game.new 2).spawn_object plainsCard Zone.battlefield
      = Except.error ("not implemented", Game.new 2)) ∧
    ((Game.new 2).spawn_object plainsCard Zone.stack
      = Except.error ("not implemented", Game.new 2)) ∧
    ((Game.new 2).spawn_object plainsCard (Zone.hand (PlayerId.mk 0))
      = Except.error ("not implemented", Game.new 2)) :=
  ⟨rfl, spawn_object_non_library_fails (Game.new 2) plainsCard Zone.battlefield rfl,
    spawn_object_non_library_fails (Game.new 2) plainsCard Zone.stack rfl,
    spawn_object_non_library_fails (Game.new 2) plainsCard (Zone.hand (PlayerId.mk 0)) rfl⟩

/-- C9: `Game::new(n)` creates exactly `n` players with sequential ids
`0..n`, each with 20 starting life, and one empty library per player keyed
by that player's id, over a fresh empty world. -/
theorem new_game_roster (n : Nat) :
    (Game.new n).players.length = n ∧
    (Game.new n).players.map Player.id = (List.range n).map PlayerId.mk ∧
    (∀ p ∈ (Game.new n).players, p.life = 20) ∧
    (Game.new n).libraries
      = (Game.new n).players.map (fun p => (p.id, Library.default)) ∧
    (Game.new n).world = World.new := by
  refine ⟨by simp [Game.new], ?_, ?_, ?_, rfl⟩
  · simp [Game.new]
  · intro p hp
    simp [Game.new] at hp
    obtain ⟨i, _, rfl⟩ := hp
    rfl
  · simp [Game.new]

theorem new_game_roster_witness :
    (Game.new 2).players.length = 2 ∧
    (Game.new 2).players.map Player.id = [PlayerId.mk 0, PlayerId.mk 1] ∧
    ∀ p ∈ (Game.new 2).players, p.life = 20 :=
  ⟨(new_game_roster 2).1,
    ((new_game_roster 2).2.1).trans (by rfl),
    (new_game_roster 2).2.2.1⟩

/-- C1 (amended): when the deck mapping's size differs from the roster
size, `start` fails on the assertion before any spawning and the state is
unchanged. (The key-set part of the original claim is refuted by
`start_equal_count_bad_key_spawns`: an equal-sized mapping with a key off
the roster passes the assertion and fails only mid-spawn, after an entity
has been committed to the world.) -/
theorem start_size_mismatch_unchanged (db : List Card) (picks : Nat → Nat → Nat)
    (g : Game) (decks : List (PlayerId × Deck))
    (h : decks.length ≠ g.players.length) :
    Game.start db picks g decks
      = Except.error ("assertion failed: decks.len() == self.players.len()", g) := by
  simp [Game.start, h]

theorem start_size_mismatch_unchanged_witness :
    (([] : List (PlayerId × Deck)).length ≠ (Game.new 1).players.length) ∧
    (Game.start db0 picks0 (Game.new 1) []
      = Except.error ("assertion failed: decks.len() == self.players.len()", Game.new 1)) :=
  ⟨by decide, start_size_mismatch_unchanged db0 picks0 (Game.new 1) [] (by decide)⟩

/-- C1 counterexample: a deck mapping whose key set differs from the
roster {0} of a one-player session but has the same size. `start` passes
the size assertion, spawns the first card into the world, and only then
fails on the unknown `PlayerId` — the failing state contains one spawned
entity, so the original claim "fails without spawning any entity" is
false of the code. -/
theorem start_equal_count_bad_key_spawns :
    decksBad.length = (Game.new 1).players.length ∧
    (decksBad.map Prod.fst ≠ (Game.new 1).players.map Player.id) ∧
    (Game.start db0 picks0 (Game.new 1) decksBad).isOk = false ∧
    (match Game.start db0 picks0 (Game.new 1) decksBad with
      | Except.error (_, g') => g'.world.entities.length
      | Except.ok _ => 0) = 1 :=
  ⟨rfl, by decide, rfl, rfl⟩

/-- C10: `find_card_by_name` returns `None` exactly when no card in the
database has the queried name, and otherwise returns the first card in
database order whose name equals the query — in particular it is a pure
function of the database and the name, so repeated calls agree. -/
theorem find_card_by_name_first (db : List Card) (name : String) :
    (find_card_by_name db name = none ↔ ∀ c ∈ db, c.name.val ≠ name) ∧
    ∀ c : Card, find_card_by_name db name = some c →
      c.name.val = name ∧
      ∃ i : Nat, db[i]? = some c ∧
        ∀ j, j < i → ∀ c' : Card, db[j]? = some c' → c'.name.val ≠ name := by
  constructor
  · rw [show find_card_by_name db name = db.find? fun it => it.name.val == name from rfl,
      List.find?_eq_none]
    simp
  · intro c
    induction db with
    | nil => intro h; cases h
    | cons d rest ih =>
      intro h
      have hcons : find_card_by_name (d :: rest) name
          = if d.name.val == name then some d else find_card_by_name rest name := by
        simp only [find_card_by_name, List.find?_cons]
        cases hb : (d.name.val == name) <;> simp [hb]
      rw [hcons] at h
      by_cases hd : d.name.val = name
      · rw [if_pos (by simp [hd])] at h
        cases h
        exact ⟨hd, 0, by simp, fun j hj => absurd hj (Nat.not_lt_zero j)⟩
      · rw [if_neg (by simp [hd])] at h
        obtain ⟨hname, i, hi, hfirst⟩ := ih h
        refine ⟨hname, i + 1, by simpa using hi, ?_⟩
        intro j hj c' hj'
        cases j with
        | zero =>
          simp at hj'
          subst hj'
          exact hd
        | succ k =>
          exact hfirst k (by omega) c' (by simpa using hj')

theorem find_card_by_name_first_witness :
    plainsCard.name.val = "Plains" ∧
    ∃ i : Nat, db0[i]? = some plainsCard ∧
      ∀ j, j < i → ∀ c' : Card, db0[j]? = some c' → c'.name.val ≠ "Plains" :=
  (find_card_by_name_first db0 "Plains").2 plainsCard rfl

theorem listSwap_perm (l : List Nat) (i j : Nat) : (listSwap l i j).Perm l := by
  unfold listSwap
  cases h1 : l[i]? with
  | none => exact List.Perm.refl l
  | some a =>
    cases h2 : l[j]? with
    | none => exact List.Perm.refl l
    | some b =>
      obtain ⟨hi, hia⟩ := List.getElem?_eq_some.mp h1
      obtain ⟨hj, hjb⟩ := List.getElem?_eq_some.mp h2
      have hmema : a ∈ l := by rw [← hia]; exact List.getElem_mem hi
      have hmemb : b ∈ l := by rw [← hjb]; exact List.getElem_mem hj
      rcases eq_or_ne i j with rfl | hij
      · have hab : a = b := by rw [← hia, ← hjb]
        subst hab
        show ((l.set i a).set i a).Perm l
        rw [List.set_set]
        refine List.perm_iff_count.mpr fun c => ?_
        rw [List.count_set a c l i hi, hia]
        have h1c : (if (a == c) = true then 1 else 0) ≤ l.count c := by
          split
          · next hac =>
            have : a = c := by simpa using hac
            subst this
            exact List.count_pos_iff.mpr hmema
          · omega
        omega
      · show ((l.set i b).set j a).Perm l
        refine List.perm_iff_count.mpr fun c => ?_
        have hj' : j < (l.set i b).length := by simpa using hj
        have hbj : (l.set i b)[j] = b := by
          have hs : (l.set i b)[j]? = some b := by
            rw [List.getElem?_set_ne hij, h2]
          obtain ⟨_, hb'⟩ := List.getElem?_eq_some.mp hs
          exact hb'
        rw [List.count_set a c (l.set i b) j hj', hbj,
          List.count_set b c l i hi, hia]
        have hac : (if (a == c) = true then 1 else 0) ≤ l.count c := by
          split
          · next h =>
            have : a = c := by simpa using h
            subst this
            exact List.count_pos_iff.mpr hmema
          · omega
        have hbc : (if (b == c) = true then 1 else 0) ≤ l.count c := by
          split
          · next h =>
            have : b = c := by simpa using h
            subst this
            exact List.count_pos_iff.mpr hmemb
          · omega
        omega

theorem shuffleSteps_perm (pick : Nat → Nat) :
    ∀ (n : Nat) (l : List Nat), (shuffleSteps pick n l).Perm l := by
  intro n
  induction n with
  | zero => intro l; exact List.Perm.refl l
  | succ m ih =>
    intro l
    exact (ih _).trans (listSwap_perm l (m + 1) (pick (m + 1) % (m + 2)))

/-- Per-library half of C7: shuffling permutes the card sequence, whatever
the random source produces. -/
theorem library_shuffle_perm (pick : Nat → Nat) (lib : Library) :
    (Library.shuffle pick lib).cards.Perm lib.cards :=
  shuffleSteps_perm pick (lib.cards.length - 1) lib.cards

theorem shuffleAll_forall₂ (picks : Nat → Nat → Nat) (libs : List (PlayerId × Library)) :
    ∀ k : Nat,
      List.Forall₂ (fun x y => x.1 = y.1 ∧ y.2.cards.Perm x.2.cards) libs
        ((libs.enumFrom k).map fun x => (x.2.1, x.2.2.shuffle (picks x.1))) := by
  induction libs with
  | nil => intro k; exact List.Forall₂.nil
  | cons hd tl ih =>
    intro k
    exact List.Forall₂.cons ⟨rfl, library_shuffle_perm (picks k) hd.2⟩ (ih (k + 1))

/-- C7: shuffling is a permutation confined to the library being shuffled.
`Library::shuffle` permutes that library's own card sequence for every
possible random source, and the shuffle pass of `Game::start` leaves the
entity store and the player roster untouched while replacing each library,
key for key, by a permutation of itself. -/
theorem shuffle_is_permutation :
    (∀ (pick : Nat → Nat) (lib : Library),
      (Library.shuffle pick lib).cards.Perm lib.cards) ∧
    (∀ (picks : Nat → Nat → Nat) (g : Game),
      (g.shuffleAll picks).world = g.world ∧
      (g.shuffleAll picks).players = g.players ∧
      List.Forall₂ (fun x y => x.1 = y.1 ∧ y.2.cards.Perm x.2.cards)
        g.libraries (g.shuffleAll picks).libraries) := by
  refine ⟨library_shuffle_perm, fun picks g => ⟨rfl, rfl, ?_⟩⟩
  simpa [Game.shuffleAll, List.enum] using shuffleAll_forall₂ picks g.libraries 0

theorem lookupLibrary_eq_none_iff (libs : List (PlayerId × Library)) (p : PlayerId) :
    lookupLibrary libs p = none ↔ p ∉ libs.map Prod.fst := by
  induction libs with
  | nil => simp [lookupLibrary]
  | cons hd tl ih =>
    obtain ⟨q, lib⟩ := hd
    by_cases hq : q = p
    · subst hq
      simp [lookupLibrary]
    · simp [lookupLibrary, hq, ih, Ne.symm hq]

theorem mem_iff_lookupLibrary {libs : List (PlayerId × Library)}
    (hnd : (libs.map Prod.fst).Nodup) (p : PlayerId) (lib : Library) :
    (p, lib) ∈ libs ↔ lookupLibrary libs p = some lib := by
  induction libs with
  | nil => simp [lookupLibrary]
  | cons hd tl ih =>
    obtain ⟨q, lib'⟩ := hd
    simp only [List.map_cons, List.nodup_cons] at hnd
    by_cases hq : q = p
    · subst hq
      have hl : lookupLibrary ((q, lib') :: tl) q = some lib' := by
        simp [lookupLibrary]
      rw [hl]
      simp only [List.mem_cons, Prod.mk.injEq, Option.some.injEq]
      constructor
      · rintro (⟨-, rfl⟩ | hmem)
        · rfl
        · exact absurd (List.mem_map_of_mem Prod.fst hmem) hnd.1
      · rintro rfl
        exact Or.inl ⟨trivial, rfl⟩
    · have hl : lookupLibrary ((q, lib') :: tl) p = lookupLibrary tl p := by
        simp [lookupLibrary, hq]
      rw [hl, ← ih hnd.2]
      simp only [List.mem_cons, Prod.mk.injEq]
      constructor
      · rintro (⟨rfl, -⟩ | hmem)
        · exact absurd rfl hq
        · exact hmem
      · exact Or.inr

theorem lookupLibrary_update (f : Library → Library) (libs : List (PlayerId × Library))
    (p q : PlayerId) :
    lookupLibrary (updateLibrary f libs p) q =
      if q = p then (lookupLibrary libs p).map f else lookupLibrary libs q := by
  induction libs with
  | nil => simp [lookupLibrary, updateLibrary]
  | cons hd tl ih =>
    obtain ⟨r, lib⟩ := hd
    by_cases hr : r = p
    · subst hr
      by_cases hq : q = r
      · subst hq
        simp [updateLibrary, lookupLibrary]
      · simp [updateLibrary, lookupLibrary, hq, Ne.symm hq]
    · by_cases hq : r = q
      · subst hq
        simp [updateLibrary, lookupLibrary, hr, Ne.symm hr]
      · simp [updateLibrary, lookupLibrary, hr, hq, ih]

theorem keys_updateLibrary (f : Library → Library) (libs : List (PlayerId × Library))
    (p : PlayerId) :
    (updateLibrary f libs p).map Prod.fst = libs.map Prod.fst := by
  induction libs with
  | nil => rfl
  | cons hd tl ih =>
    obtain ⟨r, lib⟩ := hd
    by_cases hr : r = p <;> simp [updateLibrary, hr, ih]

theorem World.lookup_extend {w : World} (d : EntityData) {e : Nat} {dd : EntityData}
    (h : w.lookup e = some dd) :
    (World.mk (w.nextEntity + 1) (w.entities ++ [(w.nextEntity, d)])).lookup e
      = some dd := by
  unfold World.lookup at h ⊢
  rw [List.find?_append]
  cases hf : w.entities.find? fun x => x.1 == e with
  | none => rw [hf] at h; cases h
  | some x => rw [hf] at h; simp_all

theorem World.lookup_extend_new {w : World} (d : EntityData) (hwf : w.WF) :
    (World.mk (w.nextEntity + 1) (w.entities ++ [(w.nextEntity, d)])).lookup
      w.nextEntity = some d := by
  unfold World.lookup
  rw [List.find?_append]
  have hnone : (w.entities.find? fun x => x.1 == w.nextEntity) = none := by
    rw [List.find?_eq_none]
    intro x hx
    have := hwf x hx
    simp
    omega
  rw [hnone]
  simp

theorem World.zoneCount_extend (w : World) (d : EntityData) (z : Zone) :
    (World.mk (w.nextEntity + 1) (w.entities ++ [(w.nextEntity, d)])).zoneCount z
      = w.zoneCount z + (if d.zone = z then 1 else 0) := by
  unfold World.zoneCount
  rw [List.filter_append, List.length_append]
  congr 1
  by_cases hz : d.zone = z <;> simp [hz]

theorem World.WF_extend {w : World} (d : EntityData) (hwf : w.WF) :
    (World.mk (w.nextEntity + 1) (w.entities ++ [(w.nextEntity, d)])).WF := by
  intro x hx
  simp only [List.mem_append, List.mem_singleton] at hx
  rcases hx with hx | rfl
  · exact Nat.lt_trans (hwf x hx) (Nat.lt_succ_self _)
  · exact Nat.lt_succ_self _

theorem GoodEntity_extend {w : World} {d : EntityData} {p : PlayerId} {e : Nat}
    (h : GoodEntity w p e) :
    GoodEntity (World.mk (w.nextEntity + 1) (w.entities ++ [(w.nextEntity, d)])) p e := by
  obtain ⟨dd, hdd, hz, ho⟩ := h
  exact ⟨dd, World.lookup_extend d hdd, hz, ho⟩

theorem spawn_object_ok_elim {g : Game} {card : Card} {zone : Zone} {g' : Game}
    (h : g.spawn_object card zone = Except.ok g') :
    ∃ p d, zone = Zone.library p ∧
      d.zone = Zone.library p ∧ d.owner = Owner.mk p ∧
      (∃ lib, lookupLibrary g.libraries p = some lib) ∧
      g'.world = World.mk (g.world.nextEntity + 1)
        (g.world.entities ++ [(g.world.nextEntity, d)]) ∧
      g'.players = g.players ∧
      g'.libraries = updateLibrary
        (fun lib => Library.mk (lib.cards ++ [g.world.nextEntity])) g.libraries p := by
  cases zone with
  | library p =>
    rw [show g.spawn_object card (Zone.library p)
        = match lookupLibrary g.libraries p with
          | some _ =>
            Except.ok
              { g with
                world := World.mk (g.world.nextEntity + 1)
                  (g.world.entities ++
                    [(g.world.nextEntity,
                      { name := card.name
                        type_line := card.type_line
                        expansion_symbol := card.expansion_symbol
                        rules_text := card.rules_text
                        collector_number := card.collector_number
                        color := card.color
                        mana_cost := card.mana_cost
                        pt := card.pt
                        loyalty := card.loyalty
                        owner := Owner.mk p
                        zone := Zone.library p })])
                libraries :=
                  updateLibrary (fun lib => Library.mk (lib.cards ++ [g.world.nextEntity]))
                    g.libraries p }
          | none =>
            Except.error
              ("Could not access the library of player with id " ++ toString p.id ++ ".",
                { g with
                  world := World.mk (g.world.nextEntity + 1)
                    (g.world.entities ++
                      [(g.world.nextEntity,
                        { name := card.name
                          type_line := card.type_line
                          expansion_symbol := card.expansion_symbol
                          rules_text := card.rules_text
                          collector_number := card.collector_number
                          color := card.color
                          mana_cost := card.mana_cost
                          pt := card.pt
                          loyalty := card.loyalty
                          owner := Owner.mk p
                          zone := Zone.library p })]) }) from rfl] at h
    cases hl : lookupLibrary g.libraries p with
    | none => rw [hl] at h; cases h
    | some lib =>
      rw [hl] at h
      cases h
      exact ⟨p, _, rfl, rfl, rfl, ⟨lib, hl⟩, rfl, rfl, rfl⟩
  | hand p => cases h
  | battlefield => cases h
  | graveyard p => cases h
  | stack => cases h
  | exile => cases h
  | command => cases h

theorem GameWF_spawn {g g' : Game} {card : Card} {zone : Zone}
    (hwf : GameWF g) (h : g.spawn_object card zone = Except.ok g') : GameWF g' := by
  obtain ⟨hw, hnd, hinv⟩ := hwf
  obtain ⟨p, d, -, hdz, hdo, ⟨lib, hl⟩, hw', hp', hlibs'⟩ := spawn_object_ok_elim h
  have hnd' : (g'.libraries.map Prod.fst).Nodup := by
    rw [hlibs', keys_updateLibrary]
    exact hnd
  refine ⟨?_, hnd', ?_⟩
  · rw [hw']
    exact World.WF_extend d hw
  · intro q lib' hmem
    rw [mem_iff_lookupLibrary hnd' q lib', hlibs', lookupLibrary_update] at hmem
    by_cases hq : q = p
    · subst hq
      rw [if_pos rfl, hl] at hmem
      cases hmem
      obtain ⟨hlen, hgood⟩ := hinv q lib ((mem_iff_lookupLibrary hnd q lib).mpr hl)
      constructor
      · rw [hw', World.zoneCount_extend, ← hlen]
        simp [hdz, List.length_append]
      · intro e he
        rcases List.mem_append.mp he with he | he
        · rw [hw']
          exact GoodEntity_extend (hgood e he)
        · rw [List.mem_singleton] at he
          subst he
          rw [hw']
          exact ⟨d, World.lookup_extend_new d hw, hdz, hdo⟩
    · rw [if_neg hq] at hmem
      obtain ⟨hlen, hgood⟩ := hinv q lib' ((mem_iff_lookupLibrary hnd q lib').mpr hmem)
      constructor
      · rw [hw', World.zoneCount_extend, ← hlen]
        have : ¬ d.zone = Zone.library q := by
          rw [hdz]
          intro hcontra
          exact hq (Zone.library.inj hcontra).symm
        simp [this]
      · intro e he
        rw [hw']
        exact GoodEntity_extend (hgood e he)

theorem GameWF_spawnCards {cards : List Card} :
    ∀ {g g' : Game} {zone : Zone},
      GameWF g → g.spawnCards cards zone = Except.ok g' → GameWF g' := by
  induction cards with
  | nil =>
    intro g g' zone hwf h
    cases h
    exact hwf
  | cons card rest ih =>
    intro g g' zone hwf h
    rw [show g.spawnCards (card :: rest) zone
        = match g.spawn_object card zone with
          | Except.ok g1 => g1.spawnCards rest zone
          | Except.error e => Except.error e from rfl] at h
    cases hsp : g.spawn_object card zone with
    | ok g1 =>
      rw [hsp] at h
      exact ih (GameWF_spawn hwf hsp) h
    | error e => rw [hsp] at h; cases h

theorem GameWF_spawnDecks {db : List Card} {decks : List (PlayerId × Deck)} :
    ∀ {g g' : Game},
      GameWF g → g.spawnDecks db decks = Except.ok g' → GameWF g' := by
  induction decks with
  | nil =>
    intro g g' hwf h
    cases h
    exact hwf
  | cons hd rest ih =>
    intro g g' hwf h
    obtain ⟨p, deck⟩ := hd
    rw [show g.spawnDecks db ((p, deck) :: rest)
        = match deck.cards db with
          | Except.ok cards =>
            match g.spawnCards cards (Zone.library p) with
            | Except.ok g1 => g1.spawnDecks db rest
            | Except.error e => Except.error e
          | Except.error msg => Except.error (msg, g) from rfl] at h
    cases hres : deck.cards db with
    | ok cards =>
      rw [hres] at h
      have h2 : (match g.spawnCards cards (Zone.library p) with
          | Except.ok g1 => g1.spawnDecks db rest
          | Except.error e => Except.error e) = Except.ok g' := h
      cases hsp : g.spawnCards cards (Zone.library p) with
      | ok g1 =>
        rw [hsp] at h2
        exact ih (GameWF_spawnCards hwf hsp) h2
      | error e => rw [hsp] at h2; cases h2
    | error msg => rw [hres] at h; cases h

theorem keys_shuffleAll (picks : Nat → Nat → Nat) (libs : List (PlayerId × Library)) :
    ∀ k : Nat,
      ((libs.enumFrom k).map fun x => (x.2.1, x.2.2.shuffle (picks x.1))).map Prod.fst
        = libs.map Prod.fst := by
  induction libs with
  | nil => intro k; rfl
  | cons hd tl ih =>
    intro k
    simp only [List.enumFrom, List.map_cons, List.cons.injEq]
    exact ⟨trivial, ih (k + 1)⟩

theorem lookupLibrary_shuffleAll (picks : Nat → Nat → Nat)
    (libs : List (PlayerId × Library)) (q : PlayerId) :
    ∀ (k : Nat) (lib' : Library),
      lookupLibrary ((libs.enumFrom k).map fun x => (x.2.1, x.2.2.shuffle (picks x.1))) q
          = some lib' →
      ∃ lib, lookupLibrary libs q = some lib ∧ lib'.cards.Perm lib.cards := by
  induction libs with
  | nil => intro k lib' h; cases h
  | cons hd tl ih =>
    intro k lib' h
    obtain ⟨r, lib⟩ := hd
    by_cases hr : r = q
    · subst hr
      rw [show lookupLibrary
            ((((r, lib) :: tl).enumFrom k).map fun x => (x.2.1, x.2.2.shuffle (picks x.1))) r
          = some (lib.shuffle (picks k)) from by simp [List.enumFrom, lookupLibrary]] at h
      cases h
      exact ⟨lib, by simp [lookupLibrary], library_shuffle_perm (picks k) lib⟩
    · rw [show lookupLibrary
            ((((r, lib) :: tl).enumFrom k).map fun x => (x.2.1, x.2.2.shuffle (picks x.1))) q
          = lookupLibrary ((tl.enumFrom (k + 1)).map fun x => (x.2.1, x.2.2.shuffle (picks x.1))) q
          from by simp [List.enumFrom, lookupLibrary, hr]] at h
      obtain ⟨lib0, hl0, hperm⟩ := ih (k + 1) lib' h
      exact ⟨lib0, by simp [lookupLibrary, hr, hl0], hperm⟩

theorem GameWF_shuffleAll {g : Game} (picks : Nat → Nat → Nat) (hwf : GameWF g) :
    GameWF (g.shuffleAll picks) := by
  obtain ⟨hw, hnd, hinv⟩ := hwf
  have hkeys : ((g.shuffleAll picks).libraries.map Prod.fst) = g.libraries.map Prod.fst := by
    simp only [Game.shuffleAll, List.enum]
    exact keys_shuffleAll picks g.libraries 0
  have hnd' : ((g.shuffleAll picks).libraries.map Prod.fst).Nodup := by
    rw [hkeys]; exact hnd
  refine ⟨hw, hnd', ?_⟩
  intro q lib' hmem
  rw [mem_iff_lookupLibrary hnd' q lib'] at hmem
  obtain ⟨lib, hl, hperm⟩ := lookupLibrary_shuffleAll picks g.libraries q 0 lib' hmem
  obtain ⟨hlen, hgood⟩ := hinv q lib ((mem_iff_lookupLibrary hnd q lib).mpr hl)
  constructor
  · rw [show (g.shuffleAll picks).world = g.world from rfl, hperm.length_eq]
    exact hlen
  · intro e he
    rw [show (g.shuffleAll picks).world = g.world from rfl]
    exact hgood e (hperm.mem_iff.mp he)

theorem libLen_spawn {g g' : Game} {card : Card} {p : PlayerId}
    (h : g.spawn_object card (Zone.library p) = Except.ok g') :
    libLen g' p = libLen g p + 1 ∧ ∀ q, q ≠ p → libLen g' q = libLen g q := by
  obtain ⟨p', d, hz, -, -, ⟨lib, hl⟩, -, -, hlibs'⟩ := spawn_object_ok_elim h
  have hp' : p' = p := (Zone.library.inj hz).symm
  subst hp'
  constructor
  · unfold libLen
    rw [hlibs', lookupLibrary_update, if_pos rfl, hl]
    simp [List.length_append]
  · intro q hq
    unfold libLen
    rw [hlibs', lookupLibrary_update, if_neg hq]

theorem keys_spawn {g g' : Game} {card : Card} {zone : Zone}
    (h : g.spawn_object card zone = Except.ok g') :
    g'.libraries.map Prod.fst = g.libraries.map Prod.fst := by
  obtain ⟨p, d, -, -, -, -, -, -, hlibs'⟩ := spawn_object_ok_elim h
  rw [hlibs', keys_updateLibrary]

theorem libLen_spawnCards {cards : List Card} :
    ∀ {g g' : Game} {p : PlayerId},
      g.spawnCards cards (Zone.library p) = Except.ok g' →
      (libLen g' p = libLen g p + cards.length ∧
        ∀ q, q ≠ p → libLen g' q = libLen g q) ∧
      g'.libraries.map Prod.fst = g.libraries.map Prod.fst := by
  induction cards with
  | nil =>
    intro g g' p h
    cases h
    exact ⟨⟨rfl, fun q _ => rfl⟩, rfl⟩
  | cons card rest ih =>
    intro g g' p h
    have h2 : (match g.spawn_object card (Zone.library p) with
        | Except.ok g1 => g1.spawnCards rest (Zone.library p)
        | Except.error e => Except.error e) = Except.ok g' := h
    cases hsp : g.spawn_object card (Zone.library p) with
    | ok g1 =>
      rw [hsp] at h2
      obtain ⟨⟨hlen, hother⟩, hkeys⟩ := ih h2
      obtain ⟨hlen1, hother1⟩ := libLen_spawn hsp
      refine ⟨⟨?_, ?_⟩, hkeys.trans (keys_spawn hsp)⟩
      · rw [hlen, hlen1]
        simp [List.length_cons]
        omega
      · intro q hq
        rw [hother q hq, hother1 q hq]
    | error e => rw [hsp] at h2; cases h2

theorem resolveEntries_length {db : List Card} :
    ∀ {entries : List (String × Nat)} {cards : List Card},
      resolveEntries db entries = Except.ok cards →
      cards.length = (entries.map Prod.snd).sum := by
  intro entries
  induction entries with
  | nil =>
    intro cards h
    cases h
    rfl
  | cons e rest ih =>
    intro cards h
    obtain ⟨name, count⟩ := e
    have h2 : (match find_card_by_name db name with
        | some card =>
          (resolveEntries db rest).map fun cards => List.replicate count card ++ cards
        | none => Except.error ("Card not found: " ++ name)) = Except.ok cards := h
    cases hf : find_card_by_name db name with
    | some card =>
      rw [hf] at h2
      cases hr : resolveEntries db rest with
      | ok cs =>
        rw [hr] at h2
        cases h2
        simp [List.length_append, List.length_replicate, ih hr]
      | error msg => rw [hr] at h2; cases h2
    | none => rw [hf] at h2; cases h2

theorem libLen_spawnDecks {db : List Card} {decks : List (PlayerId × Deck)} :
    ∀ {g g' : Game},
      (decks.map Prod.fst).Nodup →
      g.spawnDecks db decks = Except.ok g' →
      (∀ p deck, (p, deck) ∈ decks → libLen g' p = libLen g p + deck.size) ∧
      (∀ q, q ∉ decks.map Prod.fst → libLen g' q = libLen g q) ∧
      g'.libraries.map Prod.fst = g.libraries.map Prod.fst := by
  induction decks with
  | nil =>
    intro g g' _ h
    cases h
    exact ⟨fun p deck hm => absurd hm (List.not_mem_nil _), fun q _ => rfl, rfl⟩
  | cons hd rest ih =>
    intro g g' hnd h
    obtain ⟨r, dr⟩ := hd
    simp only [List.map_cons, List.nodup_cons] at hnd
    have h2 : (match dr.cards db with
        | Except.ok cards =>
          match g.spawnCards cards (Zone.library r) with
          | Except.ok g1 => g1.spawnDecks db rest
          | Except.error e => Except.error e
        | Except.error msg => Except.error (msg, g)) = Except.ok g' := h
    cases hres : dr.cards db with
    | ok cards =>
      rw [hres] at h2
      have h3 : (match g.spawnCards cards (Zone.library r) with
          | Except.ok g1 => g1.spawnDecks db rest
          | Except.error e => Except.error e) = Except.ok g' := h2
      cases hsp : g.spawnCards cards (Zone.library r) with
      | ok g1 =>
        rw [hsp] at h3
        obtain ⟨hmem, hout, hkeys⟩ := ih hnd.2 h3
        obtain ⟨⟨hlen1, hother1⟩, hkeys1⟩ := libLen_spawnCards hsp
        have hcards : cards.length = dr.size := resolveEntries_length hres
        refine ⟨?_, ?_, hkeys.trans hkeys1⟩
        · intro p deck hm
          rcases List.mem_cons.mp hm with heq | hm2
          · cases heq
            rw [hout r hnd.1, hlen1, hcards]
          · have hpr : p ≠ r := by
              rintro rfl
              exact hnd.1 (List.mem_map_of_mem Prod.fst hm2)
            rw [hmem p deck hm2, hother1 p hpr]
        · intro q hq
          simp only [List.map_cons, List.mem_cons] at hq
          push_neg at hq
          rw [hout q hq.2, hother1 q hq.1]
      | error e => rw [hsp] at h3; cases h3
    | error msg => rw [hres] at h2; cases h2

theorem start_ok_elim {db : List Card} {picks : Nat → Nat → Nat} {g g' : Game}
    {decks : List (PlayerId × Deck)}
    (h : Game.start db picks g decks = Except.ok g') :
    decks.length = g.players.length ∧
    ∃ g1, g.spawnDecks db decks = Except.ok g1 ∧ g' = g1.shuffleAll picks := by
  unfold Game.start at h
  by_cases hlen : decks.length = g.players.length
  · rw [if_pos hlen] at h
    cases hsp : g.spawnDecks db decks with
    | ok g1 =>
      rw [hsp] at h
      cases h
      exact ⟨hlen, g1, rfl, rfl⟩
    | error e => rw [hsp] at h; cases h
  · rw [if_neg hlen] at h
    cases h

theorem libLen_shuffleAll (picks : Nat → Nat → Nat) (g : Game) (q : PlayerId) :
    libLen (g.shuffleAll picks) q = libLen g q := by
  unfold libLen
  cases hl' : lookupLibrary (g.shuffleAll picks).libraries q with
  | none =>
    rw [lookupLibrary_eq_none_iff] at hl'
    have hkeys : ((g.shuffleAll picks).libraries.map Prod.fst) = g.libraries.map Prod.fst := by
      simp only [Game.shuffleAll, List.enum]
      exact keys_shuffleAll picks g.libraries 0
    rw [hkeys] at hl'
    rw [(lookupLibrary_eq_none_iff g.libraries q).mpr hl']
  | some lib' =>
    have hl'' : lookupLibrary
        ((g.libraries.enumFrom 0).map fun x => (x.2.1, x.2.2.shuffle (picks x.1))) q
        = some lib' := by
      rw [← hl']
      rfl
    obtain ⟨lib, hl, hperm⟩ := lookupLibrary_shuffleAll picks g.libraries q 0 lib' hl''
    rw [hl]
    exact hperm.length_eq

theorem keys_new (n : Nat) :
    (Game.new n).libraries.map Prod.fst = (Game.new n).players.map Player.id := by
  simp [Game.new, List.map_map]

theorem roster_new (n : Nat) :
    (Game.new n).players.map Player.id = (List.range n).map PlayerId.mk := by
  simp [Game.new, List.map_map]

theorem GameWF_new (n : Nat) : GameWF (Game.new n) := by
  refine ⟨?_, ?_, ?_⟩
  · intro x hx
    cases hx
  · rw [keys_new, roster_new]
    refine List.Nodup.map ?_ (List.nodup_range n)
    intro a b hab
    cases hab
    rfl
  · intro p lib hmem
    simp only [Game.new, List.mem_map] at hmem
    obtain ⟨player, -, heq⟩ := hmem
    cases heq
    refine ⟨rfl, ?_⟩
    intro e he
    cases he

theorem lookup_map_default (ps : List Player) (p : PlayerId)
    (h : p ∈ ps.map Player.id) :
    lookupLibrary (ps.map fun it => (it.id, Library.default)) p
      = some Library.default := by
  induction ps with
  | nil => cases h
  | cons q tl ih =>
    by_cases hq : q.id = p
    · simp [lookupLibrary, hq]
    · simp only [List.map_cons, List.mem_cons] at h
      rcases h with rfl | h
      · exact absurd rfl hq
      · simp only [List.map_cons, lookupLibrary, if_neg hq]
        exact ih h

theorem keys_shuffleAll_game (picks : Nat → Nat → Nat) (g : Game) :
    (g.shuffleAll picks).libraries.map Prod.fst = g.libraries.map Prod.fst := by
  simp only [Game.shuffleAll, List.enum]
  exact keys_shuffleAll picks g.libraries 0

/-- C2: after a successful `start` of a fresh session with a deck mapping
whose keys lie on the roster, every deck's owner ends with a library whose
length is the sum of the deck's copy counts, every entity in it carries
`Zone = Library(owner)` and `Owner = owner`, and the length equals the
world count of entities in that zone; moreover this library invariant
(`GameWF`) is preserved by every subsequent successful spawn and by every
shuffle. -/
theorem library_invariant_start :
    (∀ (n : Nat) (db : List Card) (picks : Nat → Nat → Nat)
        (decks : List (PlayerId × Deck)) (g' : Game),
      (decks.map Prod.fst).Nodup →
      (∀ q ∈ decks.map Prod.fst, q ∈ (Game.new n).players.map Player.id) →
      Game.start db picks (Game.new n) decks = Except.ok g' →
      GameWF g' ∧
      ∀ p deck, (p, deck) ∈ decks →
        ∃ lib, lookupLibrary g'.libraries p = some lib ∧
          lib.cards.length = deck.size ∧
          lib.cards.length = g'.world.zoneCount (Zone.library p) ∧
          ∀ e ∈ lib.cards, GoodEntity g'.world p e) ∧
    (∀ (g : Game) (card : Card) (zone : Zone) (g' : Game),
      GameWF g → g.spawn_object card zone = Except.ok g' → GameWF g') ∧
    (∀ (picks : Nat → Nat → Nat) (g : Game), GameWF g → GameWF (g.shuffleAll picks)) := by
  refine ⟨?_, fun g card zone g' hwf h => GameWF_spawn hwf h,
    fun picks g hwf => GameWF_shuffleAll picks hwf⟩
  intro n db picks decks g' hnd hcover hstart
  obtain ⟨hlen, g1, hsp, rfl⟩ := start_ok_elim hstart
  have hwf1 : GameWF g1 := GameWF_spawnDecks (GameWF_new n) hsp
  have hwf' : GameWF (g1.shuffleAll picks) := GameWF_shuffleAll picks hwf1
  refine ⟨hwf', ?_⟩
  intro p deck hm
  have hproster : p ∈ (Game.new n).players.map Player.id :=
    hcover p (List.mem_map_of_mem Prod.fst hm)
  have hkeys1 : g1.libraries.map Prod.fst = (Game.new n).libraries.map Prod.fst :=
    (libLen_spawnDecks hnd hsp).2.2
  have hpkeys : p ∈ (g1.shuffleAll picks).libraries.map Prod.fst := by
    rw [keys_shuffleAll_game, hkeys1, keys_new]
    exact hproster
  cases hl : lookupLibrary (g1.shuffleAll picks).libraries p with
  | none =>
    rw [lookupLibrary_eq_none_iff] at hl
    exact absurd hpkeys hl
  | some lib =>
    have hlibLen : libLen (g1.shuffleAll picks) p = lib.cards.length := by
      unfold libLen
      rw [hl]
    have h0 : libLen (Game.new n) p = 0 := by
      have hdef : lookupLibrary (Game.new n).libraries p = some Library.default := by
        apply lookup_map_default
        exact hproster
      unfold libLen
      rw [hdef]
      rfl
    have hsum : libLen g1 p = libLen (Game.new n) p + deck.size :=
      (libLen_spawnDecks hnd hsp).1 p deck hm
    have hfinal : lib.cards.length = deck.size := by
      rw [← hlibLen, libLen_shuffleAll, hsum, h0]
      omega
    obtain ⟨hzc, hgood⟩ :=
      hwf'.2.2 p lib ((mem_iff_lookupLibrary hwf'.2.1 p lib).mpr hl)
    exact ⟨lib, rfl, hfinal, hzc, hgood⟩

theorem library_invariant_start_witness :
    (decks0.map Prod.fst).Nodup ∧
    (∀ q ∈ decks0.map Prod.fst, q ∈ (Game.new 1).players.map Player.id) ∧
    Game.start db0 picks0 (Game.new 1) decks0 = Except.ok g0' ∧
    GameWF g0' := by
  have hnd : (decks0.map Prod.fst).Nodup := by decide
  have hcov : ∀ q ∈ decks0.map Prod.fst, q ∈ (Game.new 1).players.map Player.id := by
    decide
  have hok : Game.start db0 picks0 (Game.new 1) decks0 = Except.ok g0' := by rfl
  exact ⟨hnd, hcov, hok,
    (library_invariant_start.1 1 db0 picks0 decks0 g0' hnd hcov hok).1⟩
